import Mathlib

/-!
Verification development for the Pinata image-uploader plugin
(`src/main.ts`, first draft in the file, which the specification's line
references point into).  Strings are modelled as `List Char`; the
JavaScript string and regex primitives used by the source
(`String.prototype.replace` with `$`-substitution, `matchAll` of
`/!\[([^\]]*)\]\(([^)]+)\)/g`, `decodeURIComponent`, `new URL`,
`URLSearchParams`) are embedded below.  External collaborators (the vault,
the HTTP transport, the clock) are an explicit environment record.
-/

namespace Pinata

/-- Abbreviation turning a Lean string literal into the `List Char` model. -/
def S (s : String) : List Char := s.data

/-- ASCII lower-casing of one character (the source only ever compares
ASCII hostnames and extensions). -/
def lowerChar (c : Char) : Char :=
  if 65 ≤ c.toNat ∧ c.toNat ≤ 90 then Char.ofNat (c.toNat + 32) else c

/-- JS `toLowerCase` on the ASCII fragment. -/
def toLowerL (l : List Char) : List Char := l.map lowerChar

/-- Does `pat` occur at the head of `l`? (JS `startsWith`). -/
def startsWithL : List Char → List Char → Bool
  | [], _ => true
  | _ :: _, [] => false
  | p :: ps, c :: cs => p = c && startsWithL ps cs

/-- Does `l` end with `pat`? (JS `endsWith`, used for the `$`-anchored
hostname regexes). -/
def endsWithL (pat l : List Char) : Bool := startsWithL pat.reverse l.reverse

/-- Does `pat` occur anywhere inside `l`? (JS `includes`). -/
def containsSub (pat : List Char) : List Char → Bool
  | [] => startsWithL pat []
  | c :: cs => startsWithL pat (c :: cs) || containsSub pat cs

/-- JS whitespace test for `trim` (ASCII fragment). -/
def isWsChar (c : Char) : Bool :=
  c.toNat = 32 || c.toNat = 9 || c.toNat = 10 || c.toNat = 13 || c.toNat = 12 || c.toNat = 11

/-- JS `String.prototype.trim`. -/
def trimL (l : List Char) : List Char :=
  ((l.dropWhile isWsChar).reverse.dropWhile isWsChar).reverse

/-- Value of a hex digit, if any. -/
def hexVal (c : Char) : Option Nat :=
  if 48 ≤ c.toNat ∧ c.toNat ≤ 57 then some (c.toNat - 48)
  else if 65 ≤ c.toNat ∧ c.toNat ≤ 70 then some (c.toNat - 55)
  else if 97 ≤ c.toNat ∧ c.toNat ≤ 102 then some (c.toNat - 87)
  else none

/-- JS `decodeURIComponent` on the one-byte fragment: a `%` must be
followed by two hex digits, otherwise the call throws (`none`).  Decoded
bytes are kept as single characters (the inputs exercised by the claims
are ASCII, so no multi-byte UTF-8 assembly is needed). -/
def decodePercent : List Char → Option (List Char)
  | [] => some []
  | '%' :: a :: b :: rest =>
      match hexVal a, hexVal b with
      | some x, some y => (decodePercent rest).map (fun t => Char.ofNat (16 * x + y) :: t)
      | _, _ => none
  | '%' :: _ => none
  | c :: rest => (decodePercent rest).map (fun t => c :: t)

/-- Decimal digit character. -/
def digitChar (n : Nat) : Char := Char.ofNat (48 + n)

/-- Decimal rendering of a natural number (fuelled, structurally
recursive so that the kernel can evaluate it). -/
def natToStrAux : Nat → Nat → List Char
  | 0, _ => []
  | fuel + 1, n =>
      if n < 10 then [digitChar n]
      else natToStrAux fuel (n / 10) ++ [digitChar (n % 10)]

/-- JS `String(n)` for a natural number. -/
def natToStr (n : Nat) : List Char := natToStrAux (n + 1) n

/-- Split a list at the first occurrence of `c`: `some (before, after)`
with the separator removed, or `none` when `c` is absent. -/
def splitAtChar (c : Char) : List Char → Option (List Char × List Char)
  | [] => none
  | x :: xs =>
      if x = c then some ([], xs)
      else (splitAtChar c xs).map (fun p => (x :: p.1, p.2))

/-- Accumulator worker for `splitOnChar` (structurally recursive). -/
def splitOnCharAux (c : Char) : List Char → List Char → List (List Char)
  | [], acc => [acc.reverse]
  | x :: xs, acc =>
      if x = c then acc.reverse :: splitOnCharAux c xs []
      else splitOnCharAux c xs (x :: acc)

/-- JS `str.split(sep)` for a one-character separator. -/
def splitOnChar (c : Char) (l : List Char) : List (List Char) :=
  splitOnCharAux c l []

/-- Split a list at the first occurrence of a (non-empty) sub-list
pattern: `some (before, after)` with the pattern removed. -/
def splitAtSub (pat : List Char) : List Char → Option (List Char × List Char)
  | [] => if pat.isEmpty then some ([], []) else none
  | c :: cs =>
      if startsWithL pat (c :: cs) then some ([], (c :: cs).drop pat.length)
      else (splitAtSub pat cs).map (fun p => (c :: p.1, p.2))

/-- JS `str.replace(pat, repl)` for a plain-string pattern whose
replacement string contains no `$` sequences (first occurrence only;
unchanged when absent). -/
def replacePlain (pat repl subj : List Char) : List Char :=
  match splitAtSub pat subj with
  | none => subj
  | some (a, b) => a ++ repl ++ b

/-! ## The `new URL` collaborator

`main.ts` calls the WHATWG `URL` constructor for `hostname`, `pathname`,
`origin` and `searchParams`.  The model below parses the `http`/`https`
fragment the plugin actually feeds it: `scheme://host[:port]/path?query`
(a fragment part is cut off, hosts are lower-cased, a missing path reads
as `/`).  Parsing anything without such a scheme, or with an empty host,
throws (`none`), as the constructor does. -/

structure UrlParts where
  scheme : List Char
  hostname : List Char
  port : List Char
  pathname : List Char
  search : List Char
  deriving DecidableEq, Repr

/-- Take characters until one of the stop characters (returns taken,
rest including the stop character). -/
def takeUntilAny (stops : List Char) : List Char → List Char × List Char
  | [] => ([], [])
  | c :: cs =>
      if stops.contains c then ([], c :: cs)
      else
        let p := takeUntilAny stops cs
        (c :: p.1, p.2)

/-- Parse an absolute `http[s]://` URL into its parts (see above). -/
def parseHttpUrl (u : List Char) : Option UrlParts :=
  let go (scheme rest : List Char) : Option UrlParts :=
    let (auth, r1) := takeUntilAny (S "/?#") rest
    if auth.isEmpty then none
    else
      let (host, port) :=
        match splitAtChar ':' auth with
        | none => (auth, ([] : List Char))
        | some (h, p) => (h, p)
      let (path, r2) :=
        match r1 with
        | '/' :: _ =>
            let (p, r) := takeUntilAny (S "?#") r1
            (p, r)
        | _ => (S "/", r1)
      let search :=
        match r2 with
        | '?' :: qs => (takeUntilAny (S "#") qs).1
        | _ => []
      some ⟨scheme, toLowerL host, port, path, search⟩
  if startsWithL (S "https://") u then go (S "https") (u.drop 8)
  else if startsWithL (S "http://") u then go (S "http") (u.drop 7)
  else none

/-- JS `url.origin` for a parsed URL. -/
def urlOrigin (p : UrlParts) : List Char :=
  p.scheme ++ S "://" ++ p.hostname ++ (if p.port.isEmpty then [] else ':' :: p.port)

/-- One `application/x-www-form-urlencoded` token decoded (`+` is a
space; a well-formed `%XX` is decoded; a malformed escape is kept as-is,
as `URLSearchParams` does). -/
def formDecode : List Char → List Char
  | [] => []
  | '+' :: rest => ' ' :: formDecode rest
  | '%' :: a :: b :: rest =>
      match hexVal a, hexVal b with
      | some x, some y => Char.ofNat (16 * x + y) :: formDecode rest
      | _, _ => '%' :: formDecode (a :: b :: rest)
  | c :: rest => c :: formDecode rest

/-- JS `url.searchParams.get(name)`: first pair whose decoded name
matches, its decoded value (`null` = `none` when absent). -/
def searchParamsGet (name : List Char) (p : UrlParts) : Option (List Char) :=
  let pairs := (splitOnChar '&' p.search).filter (fun s => !s.isEmpty)
  let step (s : List Char) : List Char × List Char :=
    match splitAtChar '=' s with
    | none => (formDecode s, [])
    | some (k, v) => (formDecode k, formDecode v)
  ((pairs.map step).find? (fun kv => kv.1 = name)).map Prod.snd

/-! ## URL classifier and normalizer (`main.ts` 767-908, 1064-1094) -/

/-- `isRemoteUrl` (main.ts 767-774): `new URL(url)` must not throw and
the string must start with `http://` or `https://`. -/
def isRemoteUrl (u : List Char) : Bool :=
  (parseHttpUrl u).isSome && (startsWithL (S "http://") u || startsWithL (S "https://") u)

/-- `isImageUrl` (main.ts 1076-1090): the lower-cased URL ends in one of
the eight image extensions. -/
def isImageUrl (u : List Char) : Bool :=
  let l := toLowerL u
  [S ".jpg", S ".jpeg", S ".png", S ".gif", S ".webp", S ".bmp", S ".tiff", S ".svg"].any
    (fun e => endsWithL e l)

/-- `isKnownCdnDomain` (main.ts 886-908): the `$`-anchored hostname
patterns, all of which are suffix tests. -/
def isKnownCdnDomain (host : List Char) : Bool :=
  [S ".cloudfront.net", S ".akamaized.net", S ".fastly.net", S ".b-cdn.net",
   S ".kxcdn.com", S ".imgix.net", S ".imagekit.io", S ".sirv.com",
   S ".shopify.com", S ".vercel.app", S ".cloudinary.com", S "images.weserv.nl",
   S "wsrv.nl", S ".wp.com", S "ucarecdn.com", S "images.ctfassets.net",
   S "firebasestorage.googleapis.com"].any (fun pat => endsWithL pat host)

/-- `getFileExtFromUrl` (main.ts 1064-1074): last `.`-separated piece of
the pathname, lower-cased, when it is one of the five listed extensions;
`jpg` otherwise (also when URL parsing throws). -/
def getFileExtFromUrl (u : List Char) : List Char :=
  match parseHttpUrl u with
  | none => S "jpg"
  | some p =>
      let ext := toLowerL ((splitOnChar '.' p.pathname).getLastD [])
      if [S "jpg", S "jpeg", S "png", S "gif", S "webp"].contains ext then ext
      else S "jpg"

/-- The Shopify size-variant stripper (main.ts 852-855): replace the
first occurrence of `_(small|medium|large|grande|original|<N>x<N>|pico|`
`icon|thumb|compact|master).` by `.`. -/
def shopifyVariantAt (l : List Char) : Option (List Char) :=
  match l with
  | '_' :: rest =>
      let words := [S "small", S "medium", S "large", S "grande", S "original",
                    S "pico", S "icon", S "thumb", S "compact", S "master"]
      match words.find? (fun w => startsWithL (w ++ S ".") rest) with
      | some w => some (rest.drop w.length)
      | none =>
          let (d1, r1) := takeUntilAny (S "x") rest
          if d1.isEmpty || !(d1.all Char.isDigit) then none
          else
            match r1 with
            | 'x' :: r2 =>
                let (d2, r3) := takeUntilAny (S ".") r2
                if d2.isEmpty || !(d2.all Char.isDigit) then none
                else match r3 with
                     | '.' :: _ => some r3
                     | _ => none
            | _ => none
  | _ => none

/-- Scan for the first Shopify size-variant suffix and drop it (the `.`
stays, matching `pathname.replace(/_(...)\./, ".")`). -/
def shopifyStrip : List Char → List Char
  | [] => []
  | c :: cs =>
      match shopifyVariantAt (c :: cs) with
      | some rest => rest
      | none => c :: shopifyStrip cs

/-- `extractOriginalUrl` (main.ts 776-884): the CDN-normalization switch
on the hostname.  A parse failure returns the input URL unchanged, and so
does falling through every case. -/
def extractOriginalUrl (url : List Char) : List Char :=
  match parseHttpUrl url with
  | none => url
  | some p =>
      let host := p.hostname
      if host = S "wsrv.nl" ∨ host = S "images.weserv.nl" then
        match searchParamsGet (S "url") p with
        | some v => v
        | none => url
      else if host = S "res.cloudinary.com" then
        let parts := splitOnChar '/' p.pathname
        if parts.length > 4 then
          let cloudName := parts.getD 1 []
          let publicIdWithExt := parts.getLastD []
          S "https://res.cloudinary.com/" ++ cloudName ++ S "/image/upload/" ++ publicIdWithExt
        else url
      else if endsWithL (S ".imgix.net") host then urlOrigin p ++ p.pathname
      else if endsWithL (S ".imagekit.io") host then urlOrigin p ++ p.pathname
      else if endsWithL (S ".akamaized.net") host then urlOrigin p ++ p.pathname
      else if endsWithL (S ".fastly.net") host then urlOrigin p ++ p.pathname
      else if endsWithL (S ".b-cdn.net") host then urlOrigin p ++ p.pathname
      else if endsWithL (S ".kxcdn.com") host then urlOrigin p ++ p.pathname
      else if host = S "i0.wp.com" ∨ host = S "i1.wp.com" ∨ host = S "i2.wp.com" ∨
              host = S "i3.wp.com" then
        let wpcomUrl := p.pathname.drop 1
        if startsWithL (S "http") wpcomUrl then wpcomUrl else url
      else if endsWithL (S ".cloudfront.net") host then urlOrigin p ++ p.pathname
      else if host = S "firebasestorage.googleapis.com" then url
      else if endsWithL (S ".shopify.com") host then urlOrigin p ++ shopifyStrip p.pathname
      else if host = S "images.ctfassets.net" then urlOrigin p ++ p.pathname
      else if endsWithL (S ".sirv.com") host then urlOrigin p ++ p.pathname
      else if host = S "ucarecdn.com" then
        urlOrigin p ++ ((splitAtSub (S "/-/") p.pathname).map Prod.fst).getD p.pathname
      else if endsWithL (S ".vercel.app") host then
        match searchParamsGet (S "url") p with
        | some v => v
        | none => url
      else url

/-- Hostname of a decoded path that `isRemoteUrl` accepted (main.ts 947). -/
def hostnameOf (u : List Char) : List Char :=
  match parseHttpUrl u with
  | some p => p.hostname
  | none => []

/-! ## The image regex `/!\[([^\]]*)\]\(([^)]+)\)/g`

The pattern is deterministic (neither character class can backtrack), so
a match attempt at a position either fails or yields a unique alt text
(up to the first `]`) and a unique non-empty path (up to the first `)`).
`matchAll` scans left to right and resumes after each match, as the JS
global regex does. -/

/-- Attempt the image pattern at the head of the text: `some (alt, path,
rest)` on success. -/
def tryMatch : List Char → Option (List Char × List Char × List Char)
  | '!' :: '[' :: r0 =>
      match splitAtChar ']' r0 with
      | none => none
      | some (alt, r1) =>
          match r1 with
          | '(' :: r2 =>
              match splitAtChar ')' r2 with
              | none => none
              | some (path, r3) => if path.isEmpty then none else some (alt, path, r3)
          | _ => none
  | _ => none

/-- Fuelled scanner behind `matchAll` (fuel bounds the number of scan
steps; each step consumes at least one character). -/
def matchAllAux : Nat → List Char → List (List Char × List Char)
  | 0, _ => []
  | _ + 1, [] => []
  | fuel + 1, c :: cs =>
      match tryMatch (c :: cs) with
      | some (alt, path, rest) => (alt, path) :: matchAllAux fuel rest
      | none => matchAllAux fuel cs

/-- `content.matchAll(imageRegex)` (main.ts 913, 918): the (alt, path)
capture pairs, in document order. -/
def matchAll (content : List Char) : List (List Char × List Char) :=
  matchAllAux content.length content

/-- The full matched literal reconstructed from its captures. -/
def mkImg (alt path : List Char) : List Char :=
  S "![" ++ alt ++ S "](" ++ path ++ S ")"

/-! ## `String.prototype.replace` with `$`-substitution

Both replacement sites in `processFile` (main.ts 925-928 and 965-975,
1009-1018) pass a replacement *string*, so JavaScript applies
GetSubstitution to it: `$$` is a dollar, `$&` the matched text, a
backquote-dollar the part of the subject before the match, a
quote-dollar the part after it, and `$1` the first capture when the
pattern has one.  Any other `$` sequence is literal. -/

/-- The backquote character (written by code so that no backquote
appears in this file). -/
def backquoteChar : Char := Char.ofNat 96

/-- The single-quote character. -/
def quoteChar : Char := Char.ofNat 39

/-- GetSubstitution: expand a replacement template against one match.
`pre`/`post` are the parts of the original subject around the match,
`matched` the matched text, `caps` the capture list (`[alt]` for the
image regex, `[]` for a plain-string pattern). -/
def expandRepl (pre matched post : List Char) (caps : List (List Char)) :
    List Char → List Char
  | [] => []
  | '$' :: '$' :: t => '$' :: expandRepl pre matched post caps t
  | '$' :: '&' :: t => matched ++ expandRepl pre matched post caps t
  | '$' :: c :: t =>
      if c = backquoteChar then pre ++ expandRepl pre matched post caps t
      else if c = quoteChar then post ++ expandRepl pre matched post caps t
      else if c = '1' ∧ caps.length = 1 then
        caps.headD [] ++ expandRepl pre matched post caps t
      else '$' :: c :: expandRepl pre matched post caps t
  | c :: t => c :: expandRepl pre matched post caps t

/-- `newContent.replace(fullMatch, template)` (main.ts 925-928): replace
the first occurrence of the plain-string pattern, expanding `$`
sequences in the template; unchanged when the pattern is absent. -/
def replaceFirstStr (pat tmpl subj : List Char) : List Char :=
  match splitAtSub pat subj with
  | none => subj
  | some (a, b) => a ++ expandRepl a pat b [] tmpl ++ b

/-- Attempt the escaped-path image pattern `!\[([^\]]*)\]\(<path>\)` at
the head of the text: `some (alt, rest)` on success. -/
def tryMatchLit (path : List Char) : List Char → Option (List Char × List Char)
  | '!' :: '[' :: r0 =>
      match splitAtChar ']' r0 with
      | none => none
      | some (alt, r1) =>
          match r1 with
          | '(' :: r2 =>
              if startsWithL path r2 then
                match r2.drop path.length with
                | ')' :: rest => some (alt, rest)
                | _ => none
              else none
          | _ => none
  | _ => none

/-- Fuelled scanner behind `replaceAllImg`.  `done` accumulates the part
of the original subject already consumed (GetSubstitution's before-match
part refers to the original subject). -/
def replaceAllImgAux (path tmpl : List Char) : Nat → List Char → List Char → List Char
  | 0, _, rest => rest
  | _ + 1, _, [] => []
  | fuel + 1, done, c :: cs =>
      match tryMatchLit path (c :: cs) with
      | some (alt, rest) =>
          let matched := mkImg alt path
          expandRepl done matched rest [alt] tmpl ++
            replaceAllImgAux path tmpl fuel (done ++ matched) rest
      | none => c :: replaceAllImgAux path tmpl fuel (done ++ [c]) cs

/-- `newContent.replace(new RegExp("!\\[([^\\]]*)\\]\\(" + escapeRegExp(
imagePath) + "\\)", "g"), template)` (main.ts 966-975): replace every
occurrence of the image pattern with this exact escaped path, expanding
`$` sequences in the template per occurrence. -/
def replaceAllImg (path tmpl subj : List Char) : List Char :=
  replaceAllImgAux path tmpl subj.length [] subj

/-! ## Data model (`PinataSettings`, main.ts 12-46) -/

structure ImageOptimization where
  enabled : Bool
  width : Nat
  height : Nat
  quality : Nat
  format : List Char
  fit : List Char
  deriving DecidableEq, Repr

structure PinataSettings where
  pinataJwt : List Char
  pinataGateway : List Char
  isPrivate : Bool
  imageOptimization : ImageOptimization
  autoUploadPaste : Bool
  autoUploadDrag : Bool
  backupOriginalImages : Bool
  backupFolder : List Char
  deriving DecidableEq, Repr

/-- A vault file as the rewriter sees it (`TFile`): its `name` and its
parent folder's `path`. -/
structure VFile where
  name : List Char
  parentPath : List Char
  deriving DecidableEq, Repr

/-- External collaborators of one rewriter pass: the host link resolver
(`metadataCache.getFirstLinkpathDest` keyed by decoded path), the upload
transport (filename to CID on success, `none` on a thrown upload error),
the remote GET (`downloadRemoteImage` success per URL), the backup sink
(`vault.createBinary` success per backup path), and `Date.now()`. -/
structure Env where
  resolve : List Char → Option VFile
  upload : List Char → Option (List Char)
  fetchOk : List Char → Bool
  backupOk : List Char → Bool
  now : Nat

/-- Observable steps of one pass, recorded in execution order.  The
`dpath` fields repeat the decoded path of the reference an action was
taken for; they are ghost instrumentation and carry no behaviour. -/
inductive Event where
  | fetchGet (url dpath : List Char)
  | uploadOk (isLocal : Bool) (fileName cid dpath : List Char)
  | uploadErr (fileName dpath : List Char)
  | backupTry (fileName : List Char)
  | backupWrite (path : List Char)
  | backupErr (fileName : List Char)
  | substAll (dpath url : List Char)
  | substFirst (dpath url : List Char)
  | noteWrite (text : List Char)
  | notice
  deriving DecidableEq, Repr

/-- Assoc-list model of the JS `Map` `processedUrls` (insertion order,
first hit wins). -/
def lookupA (k : List Char) : List (List Char × List Char) → Option (List Char)
  | [] => none
  | (a, b) :: t => if a = k then some b else lookupA k t

/-- State threaded through one `processFile` pass (main.ts 912-917 plus
the backup sink's created-file set and the ghost event trace). -/
structure PassState where
  newContent : List Char
  processed : List (List Char × List Char)
  modified : Bool
  createdBackups : List (List Char)
  events : List Event
  deriving DecidableEq, Repr

/-- Append events. -/
def PassState.emit (st : PassState) (es : List Event) : PassState :=
  { st with events := st.events ++ es }

/-- `backupImage` (main.ts 572-596): compute the backup folder path
(trimmed setting or the default, parent path appended, slash runs
collapsed, a leading slash dropped), then `createBinary`.  `createBinary`
throws when the path already exists; every error is caught inside and
surfaced as a notification only. -/
def collapseSlashesAux : Bool → List Char → List Char
  | _, [] => []
  | prevSlash, c :: rest =>
      if c = '/' then
        if prevSlash then collapseSlashesAux true rest
        else '/' :: collapseSlashesAux true rest
      else c :: collapseSlashesAux false rest

def collapseSlashes (l : List Char) : List Char := collapseSlashesAux false l

/-- `replace(/^\//, "")`: one leading slash removed. -/
def dropLeadSlash : List Char → List Char
  | '/' :: rest => rest
  | l => l

def backupImage (s : PinataSettings) (env : Env) (f : VFile) (st : PassState) : PassState :=
  let backupFolder := if (trimL s.backupFolder).isEmpty then S ".image_backup"
                      else trimL s.backupFolder
  let folderPath := dropLeadSlash (collapseSlashes (backupFolder ++ S "/" ++ f.parentPath))
  let backupPath := folderPath ++ S "/" ++ f.name
  let st := st.emit [.backupTry f.name]
  if st.createdBackups.contains backupPath then
    st.emit [.backupErr f.name, .notice]
  else if env.backupOk backupPath then
    { st.emit [.backupWrite backupPath] with
      createdBackups := backupPath :: st.createdBackups }
  else
    st.emit [.backupErr f.name, .notice]

/-- The replacement literal `handleImageUpload` returns (main.ts
556-560): a complete markdown image literal around the `ipfs://` CID,
alt `private` in private mode and empty otherwise. -/
def ipfsLit (s : PinataSettings) (cid : List Char) : List Char :=
  if s.isPrivate then S "![private](ipfs://" ++ cid ++ S ")"
  else S "![](ipfs://" ++ cid ++ S ")"

/-- One iteration of the `processFile` loop (main.ts 918-1052) for a
single `(alt, imagePath)` capture pair, in the source's branch order:
decode (a throw is caught by the per-image catch and surfaced as a
notification), dedup map hit, already-on-IPFS test, remote branch
(normalize, guard on known CDN or image URL, GET, upload under the
`handleImageUpload` Blob fallback name, record, global replace), local
branch (resolve, upload under the vault filename, backup inside the
helper, record, global replace, second backup). -/
def stepMatch (s : PinataSettings) (env : Env) (st : PassState)
    (m : List Char × List Char) : PassState :=
  let alt := m.1
  let rawPath := m.2
  match decodePercent rawPath with
  | none => st.emit [.notice]
  | some dpath =>
    match lookupA dpath st.processed with
    | some u =>
        { st.emit [.substFirst dpath u] with
          newContent := replaceFirstStr (mkImg alt rawPath) (mkImg alt u) st.newContent,
          modified := true }
    | none =>
      if containsSub (S "ipfs://") dpath || containsSub (S "pinata.cloud") dpath then st
      else if isRemoteUrl dpath then
        let originalUrl := extractOriginalUrl dpath
        if isKnownCdnDomain (hostnameOf dpath) || isImageUrl dpath then
          let st := st.emit [.fetchGet originalUrl dpath]
          if env.fetchOk originalUrl then
            -- the computed remote-<ms>.<ext> filename (main.ts 955-957) is
            -- never passed on; handleImageUpload names the Blob itself
            let blobName := S "image-" ++ natToStr env.now ++ S ".png"
            match env.upload blobName with
            | none => st.emit [.uploadErr blobName dpath, .notice]
            | some cid =>
                let url := ipfsLit s cid
                { st.emit [.uploadOk false blobName cid dpath, .substAll dpath url] with
                  processed := st.processed ++ [(dpath, url)],
                  newContent := replaceAllImg rawPath (mkImg alt url) st.newContent,
                  modified := true }
          else st.emit [.notice]
        else st
      else
        match env.resolve dpath with
        | none => st
        | some f =>
          match env.upload f.name with
          | none => st.emit [.uploadErr f.name dpath, .notice]
          | some cid =>
              let st := st.emit [.uploadOk true f.name cid dpath]
              let st := if s.backupOriginalImages then backupImage s env f st else st
              let url := ipfsLit s cid
              let st :=
                { st.emit [.substAll dpath url] with
                  processed := st.processed ++ [(dpath, url)],
                  newContent := replaceAllImg rawPath (mkImg alt url) st.newContent,
                  modified := true }
              if s.backupOriginalImages then backupImage s env f st else st

/-- The loop of `processFile` over the capture pairs of the original
content. -/
def runMatches (s : PinataSettings) (env : Env)
    (ms : List (List Char × List Char)) (st : PassState) : PassState :=
  ms.foldl (stepMatch s env) st

/-- The pass state after the whole loop of `processFile`, before the
conditional `vault.modify`. -/
def loopState (s : PinataSettings) (env : Env) (content : List Char) : PassState :=
  runMatches s env (matchAll content) ⟨content, [], false, [], []⟩

/-- `processFile` (main.ts 910-1062) on a note's text: run the loop over
`content.matchAll(imageRegex)`, then `vault.modify` exactly when a
modification was recorded. -/
def processFile (s : PinataSettings) (env : Env) (content : List Char) : PassState :=
  let st := loopState s env content
  if st.modified then st.emit [.noteWrite st.newContent] else st

/-! ## Gateway URL builder (`constructIpfsUrl`, main.ts 388-429)

Only the URL composition is modelled; in private mode the composed URL
is afterwards exchanged over HTTP for a short-lived signed URL (main.ts
432-477), which is outside the pure fragment. -/

/-- `gateway.replace(/^https?:\/\//, "")`: the anchored scheme strip. -/
def stripSchemeStart (g : List Char) : List Char :=
  if startsWithL (S "https://") g then g.drop 8
  else if startsWithL (S "http://") g then g.drop 7
  else g

/-- The trimmed configured gateway with the default fallback and the
scheme stripped (main.ts 389-391). -/
def cleanGateway (s : PinataSettings) : List Char :=
  stripSchemeStart (if (trimL s.pinataGateway).isEmpty then S "gateway.pinata.cloud"
                    else trimL s.pinataGateway)

/-- `ipfsHash.replace("ipfs://", "")` (main.ts 392): first occurrence
anywhere, removed. -/
def cleanHash (h : List Char) : List Char := replacePlain (S "ipfs://") [] h

/-- Upper-case hex digit. -/
def hexDigitUpper (n : Nat) : Char :=
  if n < 10 then digitChar n else Char.ofNat (55 + n)

/-- One character under the `application/x-www-form-urlencoded`
serializer used by `URLSearchParams.toString()`. -/
def formEncodeChar (c : Char) : List Char :=
  if c.isAlphanum ∨ c = '*' ∨ c = '-' ∨ c = '.' ∨ c = '_' then [c]
  else if c = ' ' then ['+']
  else ['%', hexDigitUpper (c.toNat / 16), hexDigitUpper (c.toNat % 16)]

def formEncode (l : List Char) : List Char := l.flatMap formEncodeChar

/-- The conditional `params.append` calls (main.ts 402-425), in source
order: `width`, `height`, `quality` when truthy (non-zero), `format`
when not `auto`, `fit` when not `cover`. -/
def optParamsList (o : ImageOptimization) : List (List Char × List Char) :=
  (if o.width ≠ 0 then [(S "width", natToStr o.width)] else []) ++
  (if o.height ≠ 0 then [(S "height", natToStr o.height)] else []) ++
  (if o.quality ≠ 0 then [(S "quality", natToStr o.quality)] else []) ++
  (if o.format ≠ S "auto" then [(S "format", o.format)] else []) ++
  (if o.fit ≠ S "cover" then [(S "fit", o.fit)] else [])

/-- `params.toString()`. -/
def paramsToString (l : List (List Char × List Char)) : List Char :=
  List.intercalate (S "&") (l.map (fun kv => formEncode kv.1 ++ S "=" ++ formEncode kv.2))

/-- The composed gateway URL (main.ts 388-429): base by visibility mode,
then — whenever optimization is enabled — the separator and the encoded
parameter string (even when that string is empty). -/
def constructIpfsUrlBase (s : PinataSettings) (ipfsHash : List Char) : List Char :=
  let url := S "https://" ++ cleanGateway s ++
    (if s.isPrivate then S "/files/" else S "/ipfs/") ++ cleanHash ipfsHash
  if s.imageOptimization.enabled then
    url ++ (if containsSub (S "?") url then S "&" else S "?") ++
      paramsToString (optParamsList s.imageOptimization)
  else url

/-! ## Batch driver (`processFolder`, main.ts 1096-1120) -/

/-- A vault tree entry: a `TFile` (name, extension, text) or a `TFolder`
with its direct children. -/
inductive VEntry where
  | vfile (name ext content : List Char)
  | vfolder (name : List Char) (children : List VEntry)
  deriving Repr

/-- The `folder.children` filter of main.ts 1099-1102: a direct child
that is a file with extension `md`, as (name, content). -/
def mdProj : VEntry → Option (List Char × List Char)
  | .vfile n e c => if e = S "md" then some (n, c) else none
  | .vfolder _ _ => none

/-- `processFolder` (main.ts 1096-1120): the markdown files among the
folder's direct children, processed sequentially in child order. -/
def processFolder (s : PinataSettings) (env : Env) : VEntry → List (List Char × PassState)
  | .vfile _ _ _ => []
  | .vfolder _ ch => (ch.filterMap mdProj).map (fun nc => (nc.1, processFile s env nc.2))

/-- Every markdown file name in a vault tree, at any depth (what a
recursive enumeration would visit). -/
def allMdList : List VEntry → List (List Char)
  | [] => []
  | .vfile n e _ :: t => (if e = S "md" then [n] else []) ++ allMdList t
  | .vfolder _ ch :: t => allMdList ch ++ allMdList t

def allMdFiles (v : VEntry) : List (List Char) := allMdList [v]

/-! ## Classification predicates and trace projections -/

/-- The already-on-IPFS test of main.ts 934-938. -/
def inertPath (d : List Char) : Bool :=
  containsSub (S "ipfs://") d || containsSub (S "pinata.cloud") d

/-- The remote-branch processing guard of main.ts 949-952. -/
def remoteProcessable (d : List Char) : Bool :=
  isRemoteUrl d && (isKnownCdnDomain (hostnameOf d) || isImageUrl d)

/-- A decoded path the pass may act on: a processable remote URL, or a
non-remote path the vault resolver finds. -/
def processableRef (env : Env) (d : List Char) : Bool :=
  remoteProcessable d || (!isRemoteUrl d && (env.resolve d).isSome)

/-- Events that do not belong to the backup routine or the notification
channel. -/
def isKeyEvent : Event → Bool
  | .backupTry _ => false
  | .backupWrite _ => false
  | .backupErr _ => false
  | .notice => false
  | _ => true

def keyEvents (evs : List Event) : List Event := evs.filter isKeyEvent

/-- Decoded paths of successful uploads, in order. -/
def upDPaths (evs : List Event) : List (List Char) :=
  evs.filterMap fun e => match e with | .uploadOk _ _ _ d => some d | _ => none

/-- Filenames handed to the upload transport on successful uploads. -/
def upFileNames (evs : List Event) : List (List Char) :=
  evs.filterMap fun e => match e with | .uploadOk _ n _ _ => some n | _ => none

/-- Number of successful local (vault-file) uploads. -/
def upLocalCount (evs : List Event) : Nat :=
  (evs.filterMap fun e => match e with | .uploadOk true _ _ _ => some () | _ => none).length

/-- Decoded paths for which a remote GET was issued. -/
def fetchDPaths (evs : List Event) : List (List Char) :=
  evs.filterMap fun e => match e with | .fetchGet _ d => some d | _ => none

/-- (decoded path, stored URL) of every substitution performed. -/
def substPairs (evs : List Event) : List (List Char × List Char) :=
  evs.filterMap fun e => match e with
    | .substAll d u => some (d, u)
    | .substFirst d u => some (d, u)
    | _ => none

/-- Number of `backupImage` invocations. -/
def backupTryCount (evs : List Event) : Nat :=
  (evs.filterMap fun e => match e with | .backupTry _ => some () | _ => none).length

/-- Every decoded path the pass uploaded, fetched or substituted for. -/
def touchedDPaths (evs : List Event) : List (List Char) :=
  upDPaths evs ++ fetchDPaths evs ++ (substPairs evs).map Prod.fst

/-! ## Concrete fixtures used by the evaluation theorems -/

/-- The default optimization record (main.ts 34-41), disabled. -/
def optDefault : ImageOptimization := ⟨false, 800, 600, 80, S "auto", S "cover"⟩

/-- Public-mode settings, backup off. -/
def pubSettings : PinataSettings :=
  ⟨S "jwt", S "gateway.pinata.cloud", false, optDefault, true, true, false, S ".image_backup"⟩

/-- Public-mode settings with backup of originals enabled. -/
def bakSettings : PinataSettings := { pubSettings with backupOriginalImages := true }

/-- A small vault/transport environment: `cat.png`, `a b.png`, `w.png`
and `z.png` resolve; uploads succeed with fixed CIDs; remote GETs
succeed; backups succeed; the clock reads 99. -/
def demoEnv : Env where
  resolve d :=
    if d = S "cat.png" then some ⟨S "cat.png", []⟩
    else if d = S "a b.png" then some ⟨S "a b.png", []⟩
    else if d = S "w.png" then some ⟨S "w.png", []⟩
    else if d = S "z.png" then some ⟨S "z.png", []⟩
    else none
  upload n :=
    if n = S "cat.png" then some (S "CID1")
    else if n = S "a b.png" then some (S "CID2")
    else if n = S "w.png" then some (S "CID3")
    else if n = S "z.png" then some (S "CID5")
    else if n = S "image-99.png" then some (S "CID4")
    else none
  fetchOk _ := true
  backupOk _ := true
  now := 99

/-- `demoEnv` with every backup write failing. -/
def demoEnvBadBackup : Env := { demoEnv with backupOk := fun _ => false }

/-- An enabled optimization record with zero height and the default fit
(used to exercise the parameter conditions). -/
def optActive : ImageOptimization := ⟨true, 800, 0, 80, S "webp", S "cover"⟩

/-- Is this event an upload request (successful or failed) for the
decoded path `d`?  Both `uploadOk` and `uploadErr` mark one HTTP request
to the upload transport. -/
def isAttemptFor (d : List Char) : Event → Bool
  | .uploadOk _ _ _ d2 => d2 = d
  | .uploadErr _ d2 => d2 = d
  | _ => false

/-- Number of upload requests issued for the decoded path `d`. -/
def attemptsFor (d : List Char) (evs : List Event) : Nat :=
  evs.countP (isAttemptFor d)

/-- Decoded paths of every upload request issued (successful or
failed), in order. -/
def upAttemptDPaths (evs : List Event) : List (List Char) :=
  evs.filterMap fun e => match e with
    | .uploadOk _ _ _ d => some d
    | .uploadErr _ d => some d
    | _ => none

/-- No upload request for a decoded path is ever issued after a
successful upload of that path. -/
def noAttemptAfterSuccess (evs : List Event) : Prop :=
  ∀ (e1 : List Event) (isL : Bool) (n c d : List Char) (e2 : List Event),
    evs = e1 ++ Event.uploadOk isL n c d :: e2 → attemptsFor d e2 = 0

/-- An environment whose upload transport always fails (the vault still
resolves `a.png`): exercises the retry of a failed upload. -/
def failEnv : Env where
  resolve d := if d = S "a.png" then some ⟨S "a.png", []⟩ else none
  upload _ := none
  fetchOk _ := true
  backupOk _ := true
  now := 99

/-! ## Helper lemmas about the state and trace projections -/

@[simp] theorem emit_newContent (st : PassState) (es : List Event) :
    (st.emit es).newContent = st.newContent := rfl

@[simp] theorem emit_processed (st : PassState) (es : List Event) :
    (st.emit es).processed = st.processed := rfl

@[simp] theorem emit_modified (st : PassState) (es : List Event) :
    (st.emit es).modified = st.modified := rfl

@[simp] theorem emit_createdBackups (st : PassState) (es : List Event) :
    (st.emit es).createdBackups = st.createdBackups := rfl

@[simp] theorem emit_events (st : PassState) (es : List Event) :
    (st.emit es).events = st.events ++ es := rfl

@[simp] theorem keyEvents_append (a b : List Event) :
    keyEvents (a ++ b) = keyEvents a ++ keyEvents b := List.filter_append ..

@[simp] theorem upDPaths_append (a b : List Event) :
    upDPaths (a ++ b) = upDPaths a ++ upDPaths b := List.filterMap_append ..

@[simp] theorem upFileNames_append (a b : List Event) :
    upFileNames (a ++ b) = upFileNames a ++ upFileNames b := List.filterMap_append ..

@[simp] theorem fetchDPaths_append (a b : List Event) :
    fetchDPaths (a ++ b) = fetchDPaths a ++ fetchDPaths b := List.filterMap_append ..

@[simp] theorem substPairs_append (a b : List Event) :
    substPairs (a ++ b) = substPairs a ++ substPairs b := List.filterMap_append ..

@[simp] theorem upLocalCount_append (a b : List Event) :
    upLocalCount (a ++ b) = upLocalCount a + upLocalCount b := by
  unfold upLocalCount
  rw [List.filterMap_append, List.length_append]

@[simp] theorem backupTryCount_append (a b : List Event) :
    backupTryCount (a ++ b) = backupTryCount a + backupTryCount b := by
  unfold backupTryCount
  rw [List.filterMap_append, List.length_append]

theorem lookupA_append_some {k v : List Char} {l : List (List Char × List Char)}
    (m : List (List Char × List Char)) (h : lookupA k l = some v) :
    lookupA k (l ++ m) = some v := by
  induction l with
  | nil => simp [lookupA] at h
  | cons p t ih =>
      obtain ⟨a, b⟩ := p
      simp only [lookupA, List.cons_append] at *
      split at h
      · simp [*]
      · simp only [*, if_neg]
        exact ih h

theorem lookupA_append_none {k : List Char} {l : List (List Char × List Char)}
    (m : List (List Char × List Char)) (h : lookupA k l = none) :
    lookupA k (l ++ m) = lookupA k m := by
  induction l with
  | nil => simp
  | cons p t ih =>
      obtain ⟨a, b⟩ := p
      simp only [lookupA, List.cons_append] at *
      split at h
      · exact absurd h (by simp)
      · simp only [*, if_neg]
        exact ih h

theorem lookupA_isSome_iff {k : List Char} {l : List (List Char × List Char)} :
    (lookupA k l).isSome ↔ k ∈ l.map Prod.fst := by
  induction l with
  | nil => simp [lookupA]
  | cons p t ih =>
      obtain ⟨a, b⟩ := p
      simp only [lookupA, List.map_cons, List.mem_cons]
      split
      · simp [*]
      · rw [ih]
        constructor
        · exact Or.inr
        · rintro (h | h)
          · exact absurd h.symm (by assumption)
          · exact h

/-- `backupImage` leaves the rewriting state alone: it touches only the
created-backup set and the backup part of the trace. -/
theorem backupImage_core (s : PinataSettings) (env : Env) (f : VFile) (st : PassState) :
    (backupImage s env f st).newContent = st.newContent ∧
    (backupImage s env f st).processed = st.processed ∧
    (backupImage s env f st).modified = st.modified := by
  unfold backupImage
  dsimp only
  repeat' split
  all_goals exact ⟨rfl, rfl, rfl⟩

theorem backupImage_keyEvents (s : PinataSettings) (env : Env) (f : VFile) (st : PassState) :
    keyEvents (backupImage s env f st).events = keyEvents st.events := by
  unfold backupImage
  dsimp only
  repeat' split
  all_goals simp [PassState.emit, keyEvents, isKeyEvent]

theorem backupImage_tryCount (s : PinataSettings) (env : Env) (f : VFile) (st : PassState) :
    backupTryCount (backupImage s env f st).events = backupTryCount st.events + 1 := by
  unfold backupImage
  dsimp only
  repeat' split
  all_goals simp [PassState.emit, backupTryCount]

theorem backupImage_upLocalCount (s : PinataSettings) (env : Env) (f : VFile) (st : PassState) :
    upLocalCount (backupImage s env f st).events = upLocalCount st.events := by
  unfold backupImage
  dsimp only
  repeat' split
  all_goals simp [PassState.emit, upLocalCount]

theorem backupImage_upDPaths (s : PinataSettings) (env : Env) (f : VFile) (st : PassState) :
    upDPaths (backupImage s env f st).events = upDPaths st.events := by
  unfold backupImage
  dsimp only
  repeat' split
  all_goals simp [PassState.emit, upDPaths]

theorem backupImage_upFileNames (s : PinataSettings) (env : Env) (f : VFile) (st : PassState) :
    upFileNames (backupImage s env f st).events = upFileNames st.events := by
  unfold backupImage
  dsimp only
  repeat' split
  all_goals simp [PassState.emit, upFileNames]

theorem backupImage_fetchDPaths (s : PinataSettings) (env : Env) (f : VFile) (st : PassState) :
    fetchDPaths (backupImage s env f st).events = fetchDPaths st.events := by
  unfold backupImage
  dsimp only
  repeat' split
  all_goals simp [PassState.emit, fetchDPaths]

theorem backupImage_substPairs (s : PinataSettings) (env : Env) (f : VFile) (st : PassState) :
    substPairs (backupImage s env f st).events = substPairs st.events := by
  unfold backupImage
  dsimp only
  repeat' split
  all_goals simp [PassState.emit, substPairs]

theorem backupImage_noteWriteFree (s : PinataSettings) (env : Env) (f : VFile) (st : PassState)
    (h : ∀ t, Event.noteWrite t ∉ st.events) :
    ∀ t, Event.noteWrite t ∉ (backupImage s env f st).events := by
  unfold backupImage
  dsimp only
  repeat' split
  all_goals intro t; simp [PassState.emit, h t]

@[simp] theorem emit_emit (st : PassState) (x y : List Event) :
    (st.emit x).emit y = st.emit (x ++ y) := by
  cases st
  simp [PassState.emit]

@[simp] theorem attemptsFor_append (d : List Char) (a b : List Event) :
    attemptsFor d (a ++ b) = attemptsFor d a + attemptsFor d b :=
  List.countP_append ..

/-- A successful upload event inside a trace contributes its decoded
path to `upDPaths`. -/
theorem upDPaths_of_split {a e1 e2 : List Event} {isL : Bool} {n c d : List Char}
    (h : a = e1 ++ Event.uploadOk isL n c d :: e2) : d ∈ upDPaths a := by
  subst h
  simp [upDPaths]

/-- A trace without successful uploads trivially has no attempt after a
success. -/
theorem nas_noOk (es : List Event)
    (h : ∀ (isL : Bool) (n c d : List Char), Event.uploadOk isL n c d ∉ es) :
    noAttemptAfterSuccess es := by
  intro e1 isL n c d e2 hsplit
  refine absurd ?_ (h isL n c d)
  rw [hsplit]
  simp

/-- A trace holding exactly one successful upload, whose tail issues no
request for its path, has no attempt after a success. -/
theorem nas_single (pre post : List Event) (isL : Bool) (n c dp : List Char)
    (hpre : ∀ (isL2 : Bool) (n2 c2 d2 : List Char), Event.uploadOk isL2 n2 c2 d2 ∉ pre)
    (hpost : ∀ (isL2 : Bool) (n2 c2 d2 : List Char), Event.uploadOk isL2 n2 c2 d2 ∉ post)
    (hatt : attemptsFor dp post = 0) :
    noAttemptAfterSuccess (pre ++ Event.uploadOk isL n c dp :: post) := by
  intro e1 isL2 n2 c2 d2 e2 hsplit
  rcases List.append_eq_append_iff.mp hsplit with ⟨m, hm1, hm2⟩ | ⟨m, hm1, hm2⟩
  · cases m with
    | nil =>
        simp only [List.nil_append] at hm2
        injection hm2 with hhead htail
        injection hhead with g1 g2 g3 g4
        subst g4
        rw [← htail]
        exact hatt
    | cons x t =>
        injection hm2 with hhead htail
        refine absurd ?_ (hpost isL2 n2 c2 d2)
        rw [htail]
        simp
  · cases m with
    | nil =>
        simp only [List.nil_append] at hm2
        injection hm2 with hhead htail
        injection hhead with g1 g2 g3 g4
        subst g4
        rw [htail]
        exact hatt
    | cons x t =>
        injection hm2 with hhead htail
        refine absurd ?_ (hpre isL2 n2 c2 d2)
        rw [hm1, ← hhead]
        simp
 
/-- Extending a trace that has no attempt after a success with events
that issue no request for any already-successful path, and that
themselves have no attempt after a success, preserves the property. -/
theorem noLate_extend {a es : List Event}
    (hOld : noAttemptAfterSuccess a)
    (hUp : ∀ d ∈ upDPaths a, attemptsFor d es = 0)
    (hNew : noAttemptAfterSuccess es) :
    noAttemptAfterSuccess (a ++ es) := by
  intro e1 isL n c d e2 hsplit
  rcases List.append_eq_append_iff.mp hsplit with ⟨m, hm1, hm2⟩ | ⟨m, hm1, hm2⟩
  · exact hNew m isL n c d e2 hm2
  · cases m with
    | nil =>
        simp only [List.nil_append] at hm2
        exact hNew [] isL n c d e2 hm2.symm
    | cons x t =>
        injection hm2 with hhead htail
        have heq : a = e1 ++ Event.uploadOk isL n c d :: t := by
          rw [hm1, hhead]
        have hda : d ∈ upDPaths a := upDPaths_of_split heq
        have h2 : attemptsFor d t = 0 := hOld e1 isL n c d t heq
        rw [htail, List.append_eq, attemptsFor_append, h2, hUp d hda]
 
/-- `backupImage` issues no upload request, so it preserves the
no-attempt-after-success property of the trace. -/
theorem backupImage_noLate (s : PinataSettings) (env : Env) (f : VFile) (st : PassState)
    (h : noAttemptAfterSuccess st.events) :
    noAttemptAfterSuccess (backupImage s env f st).events := by
  unfold backupImage
  dsimp only
  repeat' split
  all_goals
    simp only [emit_emit, emit_events]
    refine noLate_extend h ?_ (nas_noOk _ (by intro isL n c d; simp))
    intro d hd
    simp [attemptsFor, isAttemptFor, List.countP_cons]

/-! ## The loop invariant of one pass -/

/-- Facts maintained across the iterations of the `processFile` loop:
every dedup-map key is a non-inert, processable decoded path; every
substitution event agrees with the dedup map; uploaded decoded paths are
dedup-map keys and pairwise distinct; fetched and uploaded decoded paths
are non-inert and processable; the loop itself never writes the note;
and, when backup is enabled, the backup routine has run exactly twice
per successful local upload. -/
structure LoopInv (s : PinataSettings) (env : Env) (st : PassState) : Prop where
  keys : ∀ d ∈ st.processed.map Prod.fst, inertPath d = false ∧ processableRef env d = true
  subst : ∀ p ∈ substPairs st.events, lookupA p.1 st.processed = some p.2
  upSome : ∀ d ∈ upDPaths st.events, (lookupA d st.processed).isSome
  upNodup : (upDPaths st.events).Nodup
  fetchOkP : ∀ d ∈ fetchDPaths st.events, inertPath d = false ∧ processableRef env d = true
  upOkP : ∀ d ∈ upDPaths st.events, inertPath d = false ∧ processableRef env d = true
  noWrite : ∀ t, Event.noteWrite t ∉ st.events
  bkCount : s.backupOriginalImages = true →
    backupTryCount st.events = 2 * upLocalCount st.events
  noLate : noAttemptAfterSuccess st.events

/-- Appending events that perform no substitution, no upload, no note
write and no backup try — and whose fetches are processable — preserves
the invariant. -/
theorem LoopInv.emitExt {s : PinataSettings} {env : Env} {st : PassState}
    (h : LoopInv s env st) (es : List Event)
    (hsub : substPairs es = []) (hupd : upDPaths es = [])
    (hfp : ∀ d ∈ fetchDPaths es, inertPath d = false ∧ processableRef env d = true)
    (hnw : ∀ t, Event.noteWrite t ∉ es)
    (hbt : backupTryCount es = 0) (hul : upLocalCount es = 0)
    (hatt : ∀ d ∈ upDPaths st.events, attemptsFor d es = 0)
    (hnas : noAttemptAfterSuccess es) :
    LoopInv s env (st.emit es) := by
  obtain ⟨hk, hs, hu, hn, hf, hup, hw, hb, hnl⟩ := h
  refine ⟨hk, ?_, ?_, ?_, ?_, ?_, ?_, ?_, ?_⟩
  · simpa [hsub] using hs
  · simpa [hupd] using hu
  · simpa [hupd] using hn
  · intro d hd
    simp only [emit_events, fetchDPaths_append, List.mem_append] at hd
    rcases hd with hd | hd
    · exact hf d hd
    · exact hfp d hd
  · simpa [hupd] using hup
  · intro t
    simp only [emit_events, List.mem_append]
    rintro (h1 | h2)
    · exact hw t h1
    · exact hnw t h2
  · intro hbb
    simp [hbt, hul, hb hbb]
  · exact noLate_extend hnl hatt hnas

/-- A successful upload-and-substitute extension of the state (shared
shape of the remote and local success leaves of `stepMatch`): events
grown by benign ones, one `uploadOk`, one `substAll` for a decoded path
that was not yet in the dedup map, the pair appended to the map. -/
theorem LoopInv.successExt {s : PinataSettings} {env : Env} {st st' : PassState}
    (h : LoopInv s env st) (dpath url : List Char)
    (hl : lookupA dpath st.processed = none)
    (hinert : inertPath dpath = false) (hproc : processableRef env dpath = true)
    (hP : st'.processed = st.processed ++ [(dpath, url)])
    (hsub : substPairs st'.events = substPairs st.events ++ [(dpath, url)])
    (hupd : upDPaths st'.events = upDPaths st.events ++ [dpath])
    (hfd : fetchDPaths st'.events = fetchDPaths st.events ∨
           fetchDPaths st'.events = fetchDPaths st.events ++ [dpath])
    (hnw : ∀ t, Event.noteWrite t ∉ st'.events)
    (hbk : s.backupOriginalImages = true →
      backupTryCount st'.events = 2 * upLocalCount st'.events)
    (hNL : noAttemptAfterSuccess st'.events) :
    LoopInv s env st' := by
  obtain ⟨hk, hs, hu, hn, hf, hup, hw, hb, hnl⟩ := h
  refine ⟨?_, ?_, ?_, ?_, ?_, ?_, hnw, hbk, hNL⟩
  · intro d hd
    rw [hP, List.map_append, List.mem_append] at hd
    rcases hd with hd | hd
    · exact hk d hd
    · simp only [List.map_cons, List.map_nil, List.mem_singleton] at hd
      subst hd
      exact ⟨hinert, hproc⟩
  · intro p hp
    rw [hsub, List.mem_append] at hp
    rcases hp with hp | hp
    · exact hP ▸ lookupA_append_some _ (hs p hp)
    · simp only [List.mem_singleton] at hp
      subst hp
      rw [hP, lookupA_append_none _ hl]
      simp [lookupA]
  · intro d hd
    rw [hupd, List.mem_append] at hd
    rcases hd with hd | hd
    · obtain ⟨v, hv⟩ := Option.isSome_iff_exists.mp (hu d hd)
      rw [hP, lookupA_append_some _ hv]
      rfl
    · simp only [List.mem_singleton] at hd
      subst hd
      rw [hP, lookupA_append_none _ hl]
      simp [lookupA]
  · rw [hupd]
    have hnot : dpath ∉ upDPaths st.events := by
      intro hmem
      have := hu dpath hmem
      rw [hl] at this
      simp at this
    simp [List.nodup_append, hn, hnot]
  · intro d hd
    rcases hfd with hfd | hfd
    · rw [hfd] at hd
      exact hf d hd
    · rw [hfd, List.mem_append] at hd
      rcases hd with hd | hd
      · exact hf d hd
      · simp only [List.mem_singleton] at hd
        subst hd
        exact ⟨hinert, hproc⟩
  · intro d hd
    rw [hupd, List.mem_append] at hd
    rcases hd with hd | hd
    · exact hup d hd
    · simp only [List.mem_singleton] at hd
      subst hd
      exact ⟨hinert, hproc⟩

/-- One loop iteration preserves the invariant. -/
theorem stepMatch_inv {s : PinataSettings} {env : Env} {st : PassState}
    (h : LoopInv s env st) (m : List Char × List Char) :
    LoopInv s env (stepMatch s env st m) := by
  unfold stepMatch
  dsimp only
  cases hdec : decodePercent m.2 with
  | none =>
      dsimp only
      exact h.emitExt [.notice] (by simp [substPairs]) (by simp [upDPaths])
        (by simp [fetchDPaths]) (by simp) (by simp [backupTryCount])
        (by simp [upLocalCount])
        (by intro d hd; simp [attemptsFor, isAttemptFor, List.countP_cons])
        (nas_noOk _ (by intro isL n c d2; simp))
  | some dpath =>
    dsimp only
    cases hl : lookupA dpath st.processed with
    | some u =>
        dsimp only
        obtain ⟨hk, hs, hu, hn, hf, hup, hw, hb, hnl⟩ := h
        refine ⟨hk, ?_, ?_, ?_, ?_, ?_, ?_, ?_, ?_⟩
        · intro p hp
          simp only [emit_events, substPairs_append, List.mem_append] at hp
          rcases hp with hp | hp
          · exact hs p hp
          · simp only [substPairs, List.filterMap_cons, List.filterMap_nil,
              List.mem_singleton] at hp
            subst hp
            exact hl
        · simpa [upDPaths] using hu
        · simpa [upDPaths] using hn
        · simpa [fetchDPaths] using hf
        · simpa [upDPaths] using hup
        · intro t
          simp only [emit_events, List.mem_append]
          rintro (h1 | h2)
          · exact hw t h1
          · simp at h2
        · intro hbb
          simpa [backupTryCount, upLocalCount] using hb hbb
        · exact noLate_extend hnl
            (by intro d hd; simp [attemptsFor, isAttemptFor, List.countP_cons])
            (nas_noOk _ (by intro isL n c d2; simp))
    | none =>
      dsimp only
      have hne : ∀ d2 ∈ upDPaths st.events, ¬ dpath = d2 := by
        intro d2 hd2 he
        have hso := h.upSome d2 hd2
        rw [← he, hl] at hso
        simp at hso
      by_cases hi : (containsSub (S "ipfs://") dpath ||
          containsSub (S "pinata.cloud") dpath) = true
      · rw [if_pos hi]
        exact h
      · rw [if_neg hi]
        have hinert : inertPath dpath = false := by
          simpa [inertPath] using hi
        by_cases hr : isRemoteUrl dpath = true
        · rw [if_pos hr]
          by_cases hg : (isKnownCdnDomain (hostnameOf dpath) || isImageUrl dpath) = true
          · rw [if_pos hg]
            have hproc : processableRef env dpath = true := by
              simp [processableRef, remoteProcessable, hr, hg]
            by_cases hfk : env.fetchOk (extractOriginalUrl dpath) = true
            · rw [if_pos hfk]
              cases hup2 : env.upload (S "image-" ++ natToStr env.now ++ S ".png") with
              | none =>
                  dsimp only
                  rw [emit_emit]
                  exact h.emitExt _ (by simp [substPairs]) (by simp [upDPaths])
                    (by
                      intro d hd
                      simp [fetchDPaths] at hd
                      subst hd
                      exact ⟨hinert, hproc⟩)
                    (by simp) (by simp [backupTryCount]) (by simp [upLocalCount])
                    (by
                      intro d hd
                      simp [attemptsFor, isAttemptFor, List.countP_cons, hne d hd])
                    (nas_noOk _ (by intro isL n c d2; simp))
              | some cid =>
                  dsimp only
                  refine h.successExt dpath (ipfsLit s cid) hl hinert hproc rfl
                    ?_ ?_ ?_ ?_ ?_ ?_
                  · simp [substPairs]
                  · simp [upDPaths]
                  · right
                    simp [fetchDPaths]
                  · intro t
                    simp only [emit_emit, emit_events, List.mem_append]
                    rintro (h1 | h2)
                    · exact h.noWrite t h1
                    · simp at h2
                  · intro hbb
                    simpa [backupTryCount, upLocalCount] using h.bkCount hbb
                  · simp only [emit_emit, emit_events]
                    refine noLate_extend h.noLate ?_ ?_
                    · intro d hd
                      simp [attemptsFor, isAttemptFor, List.countP_cons, hne d hd]
                    · exact nas_single [Event.fetchGet (extractOriginalUrl dpath) dpath]
                        [Event.substAll dpath (ipfsLit s cid)] false
                        (S "image-" ++ natToStr env.now ++ S ".png") cid dpath
                        (by intro isL2 n2 c2 d2; simp)
                        (by intro isL2 n2 c2 d2; simp)
                        (by simp [attemptsFor, isAttemptFor, List.countP_cons])
            · rw [if_neg hfk]
              rw [emit_emit]
              exact h.emitExt _ (by simp [substPairs]) (by simp [upDPaths])
                (by
                  intro d hd
                  simp [fetchDPaths] at hd
                  subst hd
                  exact ⟨hinert, hproc⟩)
                (by simp) (by simp [backupTryCount]) (by simp [upLocalCount])
                (by intro d hd; simp [attemptsFor, isAttemptFor, List.countP_cons])
                (nas_noOk _ (by intro isL n c d2; simp))
          · rw [if_neg hg]
            exact h
        · rw [if_neg hr]
          cases hres : env.resolve dpath with
          | none =>
              dsimp only
              exact h
          | some f =>
            dsimp only
            have hr2 : isRemoteUrl dpath = false := by
              simpa using hr
            have hproc : processableRef env dpath = true := by
              simp [processableRef, hr2, hres]
            cases hup2 : env.upload f.name with
            | none =>
                dsimp only
                exact h.emitExt _ (by simp [substPairs]) (by simp [upDPaths])
                  (by simp [fetchDPaths]) (by simp) (by simp [backupTryCount])
                  (by simp [upLocalCount])
                  (by
                    intro d hd
                    simp [attemptsFor, isAttemptFor, List.countP_cons, hne d hd])
                  (nas_noOk _ (by intro isL n c d2; simp))
            | some cid =>
              dsimp only
              by_cases hback : s.backupOriginalImages = true
              · rw [if_pos hback, if_pos hback]
                refine h.successExt dpath (ipfsLit s cid) hl hinert hproc
                  ?_ ?_ ?_ ?_ ?_ ?_ ?_
                · rw [(backupImage_core _ _ _ _).2.1, (backupImage_core _ _ _ _).2.1]
                  rfl
                · rw [backupImage_substPairs]
                  simp only [emit_events, substPairs_append]
                  rw [backupImage_substPairs]
                  simp [substPairs]
                · rw [backupImage_upDPaths]
                  simp only [emit_events, upDPaths_append]
                  rw [backupImage_upDPaths]
                  simp [upDPaths]
                · left
                  rw [backupImage_fetchDPaths]
                  simp only [emit_events, fetchDPaths_append]
                  rw [backupImage_fetchDPaths]
                  simp [fetchDPaths]
                · refine backupImage_noteWriteFree _ _ _ _ ?_
                  intro t
                  simp only [emit_events, List.mem_append]
                  rintro (h1 | h2)
                  · exact backupImage_noteWriteFree _ _ _ _ (fun t2 => by
                      intro hmem
                      simp only [emit_events, List.mem_append] at hmem
                      rcases hmem with hm | hm
                      · exact h.noWrite t2 hm
                      · simp at hm) t h1
                  · simp at h2
                · intro hbb
                  rw [backupImage_tryCount, backupImage_upLocalCount]
                  simp only [emit_events, backupTryCount_append, upLocalCount_append]
                  rw [backupImage_tryCount, backupImage_upLocalCount]
                  simp only [emit_events, backupTryCount_append, upLocalCount_append]
                  have := h.bkCount hbb
                  simp [backupTryCount, upLocalCount] at this ⊢
                  omega
                · refine backupImage_noLate _ _ _ _ ?_
                  simp only [emit_events]
                  refine noLate_extend ?_ ?_ (nas_noOk _ (by intro isL2 n2 c2 d2; simp))
                  · refine backupImage_noLate _ _ _ _ ?_
                    simp only [emit_events]
                    refine noLate_extend h.noLate ?_ ?_
                    · intro d hd
                      simp [attemptsFor, isAttemptFor, List.countP_cons, hne d hd]
                    · exact nas_single [] [] true f.name cid dpath
                        (by intro isL2 n2 c2 d2; simp)
                        (by intro isL2 n2 c2 d2; simp)
                        (by simp [attemptsFor])
                  · intro d hd
                    simp [attemptsFor, isAttemptFor, List.countP_cons]
              · rw [if_neg hback, if_neg hback]
                refine h.successExt dpath (ipfsLit s cid) hl hinert hproc rfl
                  ?_ ?_ ?_ ?_ ?_ ?_
                · simp [substPairs]
                · simp [upDPaths]
                · left
                  simp [fetchDPaths]
                · intro t
                  simp only [emit_emit, emit_events, List.mem_append]
                  rintro (h1 | h2)
                  · exact h.noWrite t h1
                  · simp at h2
                · intro hbb
                  exact absurd hbb hback
                · simp only [emit_emit, emit_events]
                  refine noLate_extend h.noLate ?_ ?_
                  · intro d hd
                    simp [attemptsFor, isAttemptFor, List.countP_cons, hne d hd]
                  · exact nas_single [] [Event.substAll dpath (ipfsLit s cid)]
                      true f.name cid dpath
                      (by intro isL2 n2 c2 d2; simp)
                      (by intro isL2 n2 c2 d2; simp)
                      (by simp [attemptsFor, isAttemptFor, List.countP_cons])

/-- The whole loop preserves the invariant. -/
theorem runMatches_inv {s : PinataSettings} {env : Env}
    (ms : List (List Char × List Char)) {st : PassState}
    (h : LoopInv s env st) : LoopInv s env (runMatches s env ms st) := by
  induction ms generalizing st with
  | nil => exact h
  | cons m t ih => exact ih (stepMatch_inv h m)

/-- The invariant holds at the start of a pass. -/
theorem initInv (s : PinataSettings) (env : Env) (content : List Char) :
    LoopInv s env ⟨content, [], false, [], []⟩ := by
  refine ⟨?_, ?_, ?_, ?_, ?_, ?_, ?_, ?_, nas_noOk [] (by intro isL n c d; simp)⟩ <;>
    simp [substPairs, upDPaths, fetchDPaths, backupTryCount, upLocalCount, lookupA]

/-- The invariant holds after the whole loop of a pass. -/
theorem loopState_inv (s : PinataSettings) (env : Env) (content : List Char) :
    LoopInv s env (loopState s env content) :=
  runMatches_inv _ (initInv s env content)

/-- The final conditional note write changes none of the trace
projections used by the claims, nor the rewriting state. -/
theorem processFile_proj (s : PinataSettings) (env : Env) (content : List Char) :
    (processFile s env content).newContent = (loopState s env content).newContent ∧
    (processFile s env content).processed = (loopState s env content).processed ∧
    (processFile s env content).modified = (loopState s env content).modified ∧
    substPairs (processFile s env content).events
      = substPairs (loopState s env content).events ∧
    upDPaths (processFile s env content).events
      = upDPaths (loopState s env content).events ∧
    upFileNames (processFile s env content).events
      = upFileNames (loopState s env content).events ∧
    fetchDPaths (processFile s env content).events
      = fetchDPaths (loopState s env content).events ∧
    backupTryCount (processFile s env content).events
      = backupTryCount (loopState s env content).events ∧
    upLocalCount (processFile s env content).events
      = upLocalCount (loopState s env content).events := by
  unfold processFile
  dsimp only
  split
  · refine ⟨rfl, rfl, rfl, ?_, ?_, ?_, ?_, ?_, ?_⟩ <;>
      simp [substPairs, upDPaths, upFileNames, fetchDPaths, backupTryCount, upLocalCount]
  · exact ⟨rfl, rfl, rfl, rfl, rfl, rfl, rfl, rfl, rfl⟩

@[simp] theorem backupImage_newContent (s : PinataSettings) (env : Env) (f : VFile)
    (st : PassState) : (backupImage s env f st).newContent = st.newContent :=
  (backupImage_core s env f st).1

@[simp] theorem backupImage_processed (s : PinataSettings) (env : Env) (f : VFile)
    (st : PassState) : (backupImage s env f st).processed = st.processed :=
  (backupImage_core s env f st).2.1

@[simp] theorem backupImage_modified (s : PinataSettings) (env : Env) (f : VFile)
    (st : PassState) : (backupImage s env f st).modified = st.modified :=
  (backupImage_core s env f st).2.2

/-- One loop iteration, run under two environments that agree on
everything except the backup sink and started from states that agree on
everything except the created-backup set and the backup/notification
events, again yields such states.  This is the heart of the claim that a
backup failure can change neither the rewrite nor the note write. -/
theorem stepMatch_bisim {s : PinataSettings} {env env' : Env}
    (hres : env.resolve = env'.resolve) (hup : env.upload = env'.upload)
    (hfk : env.fetchOk = env'.fetchOk) (hnow : env.now = env'.now)
    {st st' : PassState}
    (h1 : st.newContent = st'.newContent) (h2 : st.processed = st'.processed)
    (h3 : st.modified = st'.modified)
    (h4 : keyEvents st.events = keyEvents st'.events)
    (m : List Char × List Char) :
    (stepMatch s env st m).newContent = (stepMatch s env' st' m).newContent ∧
    (stepMatch s env st m).processed = (stepMatch s env' st' m).processed ∧
    (stepMatch s env st m).modified = (stepMatch s env' st' m).modified ∧
    keyEvents (stepMatch s env st m).events = keyEvents (stepMatch s env' st' m).events := by
  unfold stepMatch
  dsimp only
  rw [← hres, ← hup, ← hfk, ← hnow, ← h1, ← h2]
  cases hdec : decodePercent m.2 with
  | none =>
      refine ⟨h1, h2, h3, ?_⟩
      simp [h4]
  | some dpath =>
    dsimp only
    cases hl : lookupA dpath st.processed with
    | some u =>
        refine ⟨rfl, h2, rfl, ?_⟩
        simp [h4]
    | none =>
      dsimp only
      by_cases hi : (containsSub (S "ipfs://") dpath ||
          containsSub (S "pinata.cloud") dpath) = true
      · simp only [if_pos hi]
        exact ⟨h1, h2, h3, h4⟩
      · simp only [if_neg hi]
        by_cases hr : isRemoteUrl dpath = true
        · simp only [if_pos hr]
          by_cases hg : (isKnownCdnDomain (hostnameOf dpath) || isImageUrl dpath) = true
          · simp only [if_pos hg]
            by_cases hfo : env.fetchOk (extractOriginalUrl dpath) = true
            · simp only [if_pos hfo]
              cases hup2 : env.upload (S "image-" ++ natToStr env.now ++ S ".png") with
              | none =>
                  refine ⟨h1, h2, h3, ?_⟩
                  simp [h4]
              | some cid =>
                  dsimp only
                  refine ⟨?_, ?_, ?_, ?_⟩ <;> simp [h1, h2, h3, h4]
            · simp only [if_neg hfo]
              refine ⟨h1, h2, h3, ?_⟩
              simp [h4]
          · simp only [if_neg hg]
            exact ⟨h1, h2, h3, h4⟩
        · simp only [if_neg hr]
          cases hre : env.resolve dpath with
          | none => exact ⟨h1, h2, h3, h4⟩
          | some f =>
            dsimp only
            cases hup2 : env.upload f.name with
            | none =>
                refine ⟨h1, h2, h3, ?_⟩
                simp [h4]
            | some cid =>
              dsimp only
              by_cases hback : s.backupOriginalImages = true
              · simp only [if_pos hback]
                refine ⟨?_, ?_, ?_, ?_⟩ <;>
                  simp [backupImage_keyEvents, h1, h2, h3, h4]
              · simp only [if_neg hback]
                refine ⟨?_, ?_, ?_, ?_⟩ <;> simp [h1, h2, h3, h4]

/-- The whole loop, under backup-agnostic agreement of environments. -/
theorem runMatches_bisim {s : PinataSettings} {env env' : Env}
    (hres : env.resolve = env'.resolve) (hup : env.upload = env'.upload)
    (hfk : env.fetchOk = env'.fetchOk) (hnow : env.now = env'.now)
    (ms : List (List Char × List Char)) {st st' : PassState}
    (h1 : st.newContent = st'.newContent) (h2 : st.processed = st'.processed)
    (h3 : st.modified = st'.modified)
    (h4 : keyEvents st.events = keyEvents st'.events) :
    (runMatches s env ms st).newContent = (runMatches s env' ms st').newContent ∧
    (runMatches s env ms st).processed = (runMatches s env' ms st').processed ∧
    (runMatches s env ms st).modified = (runMatches s env' ms st').modified ∧
    keyEvents (runMatches s env ms st).events
      = keyEvents (runMatches s env' ms st').events := by
  induction ms generalizing st st' with
  | nil => exact ⟨h1, h2, h3, h4⟩
  | cons m t ih =>
      obtain ⟨g1, g2, g3, g4⟩ := stepMatch_bisim hres hup hfk hnow h1 h2 h3 h4 m
      exact ih g1 g2 g3 g4

/-- The events of a pass are the loop's events followed by the single
conditional note write. -/
theorem processFile_events_shape (s : PinataSettings) (env : Env) (content : List Char) :
    (processFile s env content).events = (loopState s env content).events ++
      (if (loopState s env content).modified
       then [Event.noteWrite (loopState s env content).newContent] else []) := by
  unfold processFile
  dsimp only
  split <;> simp [PassState.emit, *]

/-- A whole pass, under backup-agnostic agreement of environments:
text, dedup map, modified flag and all non-backup events coincide. -/
theorem processFile_bisim (s : PinataSettings) {env env' : Env} (content : List Char)
    (hres : env.resolve = env'.resolve) (hup : env.upload = env'.upload)
    (hfk : env.fetchOk = env'.fetchOk) (hnow : env.now = env'.now) :
    (processFile s env content).newContent = (processFile s env' content).newContent ∧
    (processFile s env content).processed = (processFile s env' content).processed ∧
    (processFile s env content).modified = (processFile s env' content).modified ∧
    keyEvents (processFile s env content).events
      = keyEvents (processFile s env' content).events := by
  obtain ⟨g1, g2, g3, g4⟩ :=
    @runMatches_bisim s env env' hres hup hfk hnow (matchAll content)
      ⟨content, [], false, [], []⟩ ⟨content, [], false, [], []⟩
      rfl rfl rfl rfl
  have e1 := processFile_events_shape s env content
  have e2 := processFile_events_shape s env' content
  have c1 : (processFile s env content).newContent = (loopState s env content).newContent :=
    (processFile_proj s env content).1
  have c1' : (processFile s env' content).newContent = (loopState s env' content).newContent :=
    (processFile_proj s env' content).1
  have c2 := (processFile_proj s env content).2.1
  have c2' := (processFile_proj s env' content).2.1
  have c3 := (processFile_proj s env content).2.2.1
  have c3' := (processFile_proj s env' content).2.2.1
  have G1 : (loopState s env content).newContent = (loopState s env' content).newContent := g1
  have G2 : (loopState s env content).processed = (loopState s env' content).processed := g2
  have G3 : (loopState s env content).modified = (loopState s env' content).modified := g3
  have G4 : keyEvents (loopState s env content).events
      = keyEvents (loopState s env' content).events := g4
  refine ⟨?_, ?_, ?_, ?_⟩
  · rw [c1, c1']
    exact G1
  · rw [c2, c2']
    exact G2
  · rw [c3, c3']
    exact G3
  · rw [e1, e2, keyEvents_append, keyEvents_append, G4, G3, G1]

/-- A pattern that occurs nowhere in a list is not found by
`splitAtSub`. -/
theorem splitAtSub_eq_none {pat l : List Char} (h : containsSub pat l = false) :
    splitAtSub pat l = none := by
  induction l with
  | nil =>
      unfold containsSub at h
      unfold splitAtSub
      cases pat with
      | nil => simp [startsWithL] at h
      | cons p ps => simp
  | cons c cs ih =>
      unfold containsSub at h
      rw [Bool.or_eq_false_iff] at h
      unfold splitAtSub
      rw [h.1, ih h.2]
      simp

/-- `replace` with an absent plain pattern is the identity. -/
theorem replacePlain_of_not_contains {pat repl l : List Char}
    (h : containsSub pat l = false) : replacePlain pat repl l = l := by
  unfold replacePlain
  rw [splitAtSub_eq_none h]

/-- Membership in a conditional singleton. -/
theorem mem_ite_singleton {α : Type} {c : Prop} [Decidable c] {a b : α} :
    (a ∈ if c then [b] else ([] : List α)) ↔ c ∧ a = b := by
  split <;> simp [*]

/-- `mdProj` characterized. -/
theorem mdProj_eq_some {e : VEntry} {n c : List Char} :
    mdProj e = some (n, c) ↔ e = VEntry.vfile n (S "md") c := by
  cases e with
  | vfile n2 e2 c2 =>
      simp only [mdProj]
      by_cases he : e2 = S "md"
      · subst he
        simp
      · rw [if_neg he]
        simp [he]
  | vfolder n2 ch => simp [mdProj]

/-! ## Claim theorems -/

/-- Claim C1: the spec says the replacement written for a successfully
uploaded reference is exactly `![private](ipfs://<cid>)` (private mode)
or `![](ipfs://<cid>)` (public mode), with the original alt text gone
and exactly one image literal.  The code disagrees: `handleImageUpload`
already returns a complete markdown literal (main.ts 556-560) and
`processFile` wraps it in `![<alt>](...)` again (main.ts 965-975,
1009-1018).  Evaluated at the failing input `![cat](cat.png)` with
`cat.png` in the vault, public mode, the upload returning `CID1`: the
note receives `![cat](![](ipfs://CID1))` — the alt text survives and two
image literals are nested — not `![](ipfs://CID1)`. -/
theorem c1ReplacementEval :
    (processFile pubSettings demoEnv (S "![cat](cat.png)")).newContent
        = S "![cat](![](ipfs://CID1))" ∧
    upDPaths (processFile pubSettings demoEnv (S "![cat](cat.png)")).events
        = [S "cat.png"] ∧
    (processFile pubSettings demoEnv (S "![cat](cat.png)")).newContent
        ≠ S "![](ipfs://CID1)" := by
  decide

/-- Claim C2, counterexample in two parts.  First, identical literals:
in the note `![x](a%20b.png) ![y](a b.png)` both decoded paths are
`a b.png`, so the claim demands identical replacement literals for the
two occurrences.  One upload indeed happens and both occurrences receive
the same URL, but the first occurrence is written as `![x](...)` and the
second (via the dedup-map branch, main.ts 924-931, which interpolates
the current match's alt) as `![y](...)`: the literals differ.  Second,
one request per decoded path: the dedup map is only written on success
(main.ts 1005, 1024), so when an upload attempt throws, a recurrence of
the same decoded path issues a fresh request.  In `![x](a.png) ![y](a.png)`
under an environment whose upload always fails, two upload requests are
issued for the single decoded path `a.png` (and none succeeds). -/
theorem c2Counterexample :
    decodePercent (S "a%20b.png") = some (S "a b.png") ∧
    decodePercent (S "a b.png") = some (S "a b.png") ∧
    upDPaths (processFile pubSettings demoEnv
        (S "![x](a%20b.png) ![y](a b.png)")).events = [S "a b.png"] ∧
    (processFile pubSettings demoEnv
        (S "![x](a%20b.png) ![y](a b.png)")).newContent
      = S "![x](![](ipfs://CID2)) ![y](![](ipfs://CID2))" ∧
    mkImg (S "x") (S "![](ipfs://CID2)") ≠ mkImg (S "y") (S "![](ipfs://CID2)") ∧
    upAttemptDPaths (processFile pubSettings failEnv
        (S "![x](a.png) ![y](a.png)")).events = [S "a.png", S "a.png"] ∧
    upDPaths (processFile pubSettings failEnv
        (S "![x](a.png) ![y](a.png)")).events = [] := by
  decide

/-- Claim C2, amended: within one pass, at most one upload request
*succeeds* per decoded path (the successfully uploaded decoded paths are
pairwise distinct); once an upload for a decoded path has succeeded, no
further upload request — successful or failed — is issued for that path
in the rest of the pass; and every substitution performed for a given
decoded path inserts the same stored replacement URL.  Occurrences seen
before the first success may each issue a (failed) request, because the
dedup map records only successes; and the full replacement literals may
still differ in their alt text, as the counterexample shows. -/
theorem c2DedupAmended (s : PinataSettings) (env : Env) (content : List Char) :
    (upDPaths (processFile s env content).events).Nodup ∧
    noAttemptAfterSuccess (processFile s env content).events ∧
    ∀ d u v, (d, u) ∈ substPairs (processFile s env content).events →
      (d, v) ∈ substPairs (processFile s env content).events → u = v := by
  obtain ⟨e1, e2, e3, e4, e5, e6, e7, e8, e9⟩ := processFile_proj s env content
  refine ⟨?_, ?_, ?_⟩
  · rw [e5]
    exact (loopState_inv s env content).upNodup
  · unfold processFile
    dsimp only
    split
    · simp only [emit_events]
      exact noLate_extend (loopState_inv s env content).noLate
        (by intro d hd; simp [attemptsFor, isAttemptFor, List.countP_cons])
        (nas_noOk _ (by intro isL n c d; simp))
    · exact (loopState_inv s env content).noLate
  · intro d u v hu hv
    rw [e4] at hu hv
    have g1 := (loopState_inv s env content).subst _ hu
    have g2 := (loopState_inv s env content).subst _ hv
    dsimp only at g1 g2
    rw [g1] at g2
    exact Option.some.inj g2

/-- Witness for `c2DedupAmended` at the counterexample note: the
same-URL conjunct instantiated at the two substitutions for `a b.png`,
and the no-attempt-after-success conjunct instantiated at the trace's
single successful upload, whose tail indeed holds no further request
for `a b.png`. -/
theorem c2DedupWitness :
    (((S "a b.png", S "![](ipfs://CID2)") ∈
      substPairs (processFile pubSettings demoEnv
        (S "![x](a%20b.png) ![y](a b.png)")).events) ∧
     S "![](ipfs://CID2)" = S "![](ipfs://CID2)") ∧
    ((processFile pubSettings demoEnv
        (S "![x](a%20b.png) ![y](a b.png)")).events
      = [] ++ Event.uploadOk true (S "a b.png") (S "CID2") (S "a b.png") ::
          [Event.substAll (S "a b.png") (S "![](ipfs://CID2)"),
           Event.substFirst (S "a b.png") (S "![](ipfs://CID2)"),
           Event.noteWrite (S "![x](![](ipfs://CID2)) ![y](![](ipfs://CID2))")] ∧
     attemptsFor (S "a b.png")
        [Event.substAll (S "a b.png") (S "![](ipfs://CID2)"),
         Event.substFirst (S "a b.png") (S "![](ipfs://CID2)"),
         Event.noteWrite (S "![x](![](ipfs://CID2)) ![y](![](ipfs://CID2))")]
       = 0) :=
  ⟨⟨by decide,
    (c2DedupAmended pubSettings demoEnv (S "![x](a%20b.png) ![y](a b.png)")).2.2
      (S "a b.png") (S "![](ipfs://CID2)") (S "![](ipfs://CID2)")
      (by decide) (by decide)⟩,
   by decide,
   (c2DedupAmended pubSettings demoEnv (S "![x](a%20b.png) ![y](a b.png)")).2.1
     [] true (S "a b.png") (S "CID2") (S "a b.png")
     [Event.substAll (S "a b.png") (S "![](ipfs://CID2)"),
      Event.substFirst (S "a b.png") (S "![](ipfs://CID2)"),
      Event.noteWrite (S "![x](![](ipfs://CID2)) ![y](![](ipfs://CID2))")]
     (by decide)⟩

/-- Claim C3: the spec demands that a second pass over the output of a
successful pass makes no upload and no modification.  The code violates
this: the replacement string is passed to `String.replace`, so a `$&` in
the alt text is expanded to the whole matched literal (main.ts 965-975),
re-inserting the original reference.  At the failing input `![$&](w.png)`
(with `w.png` in the vault, public mode): the first pass succeeds and
writes `![![$&](w.png)](![](ipfs://CID3))`; the second pass applied to
that output uploads `w.png` again and changes the text again. -/
theorem c3IdempotenceEval :
    (processFile pubSettings demoEnv (S "![$&](w.png)")).modified = true ∧
    (processFile pubSettings demoEnv (S "![$&](w.png)")).newContent
        = S "![![$&](w.png)](![](ipfs://CID3))" ∧
    upDPaths (processFile pubSettings demoEnv
        (S "![![$&](w.png)](![](ipfs://CID3))")).events = [S "w.png"] ∧
    (processFile pubSettings demoEnv
        (S "![![$&](w.png)](![](ipfs://CID3))")).newContent
      ≠ S "![![$&](w.png)](![](ipfs://CID3))" := by
  decide

/-- Claim C4, counterexample: in `![a](![b](z.png)) ![b](z.png)` the
first scanned reference has path `![b](z.png`, which decodes to itself,
is not inert, not remote, and unresolvable — classified skip.  The claim
says its bytes are left unchanged.  But uploading the second reference
(`z.png`) triggers a global replace of every `![...](z.png)` occurrence
(main.ts 966-975), one of which lies inside the first reference's bytes:
after the pass the skip-classified occurrence's literal is gone from the
note. -/
theorem c4Counterexample :
    (matchAll (S "![a](![b](z.png)) ![b](z.png)")).map Prod.snd
        = [S "![b](z.png", S "z.png"] ∧
    decodePercent (S "![b](z.png") = some (S "![b](z.png") ∧
    inertPath (S "![b](z.png") = false ∧
    isRemoteUrl (S "![b](z.png") = false ∧
    demoEnv.resolve (S "![b](z.png") = none ∧
    upDPaths (processFile pubSettings demoEnv
        (S "![a](![b](z.png)) ![b](z.png)")).events = [S "z.png"] ∧
    containsSub (mkImg (S "a") (S "![b](z.png"))
        (processFile pubSettings demoEnv
          (S "![a](![b](z.png)) ![b](z.png)")).newContent = false := by
  decide

/-- Claim C4, amended: a reference classified `alreadyIpfs` or skip is
never uploaded, never fetched, and never the target of a substitution —
every decoded path the pass uploads, fetches or substitutes for is
non-inert and processable (a processable remote URL or a resolvable
vault path).  The occurrence's bytes, however, can change when another
uploaded reference's literal occurs nested inside them, as the
counterexample shows. -/
theorem c4InertUntouched (s : PinataSettings) (env : Env) (content : List Char) :
    ∀ d ∈ touchedDPaths (processFile s env content).events,
      inertPath d = false ∧ processableRef env d = true := by
  obtain ⟨e1, e2, e3, e4, e5, e6, e7, e8, e9⟩ := processFile_proj s env content
  intro d hd
  unfold touchedDPaths at hd
  rw [e4, e5, e7] at hd
  have inv := loopState_inv s env content
  rcases List.mem_append.mp hd with hd2 | hd
  · rcases List.mem_append.mp hd2 with hd | hd
    · exact inv.upOkP d hd
    · exact inv.fetchOkP d hd
  · obtain ⟨p, hp, hfst⟩ := List.mem_map.mp hd
    have hsome := inv.subst p hp
    have hmem : p.1 ∈ (loopState s env content).processed.map Prod.fst :=
      lookupA_isSome_iff.mp (by rw [hsome]; rfl)
    have := inv.keys p.1 hmem
    rw [hfst] at this
    exact this

/-- Witness for `c4InertUntouched` at the counterexample note. -/
theorem c4InertWitness :
    (S "z.png" ∈ touchedDPaths (processFile pubSettings demoEnv
        (S "![a](![b](z.png)) ![b](z.png)")).events) ∧
    inertPath (S "z.png") = false ∧
    processableRef demoEnv (S "z.png") = true :=
  ⟨by decide,
   c4InertUntouched pubSettings demoEnv (S "![a](![b](z.png)) ![b](z.png)")
     (S "z.png") (by decide)⟩

/-- Claim C5: the spec says Cloudinary normalization drops only the
transformation and version segments and preserves every remaining path
segment, so the wrapped URL
`https://res.cloudinary.com/demo/image/upload/w_200,c_fill/v1/foo/bar.png`
should be fetched as
`https://res.cloudinary.com/demo/image/upload/foo/bar.png`.  The code
(main.ts 793-802) instead keeps only the *last* path segment (and
hardcodes the `image/upload` delivery), fetching
`https://res.cloudinary.com/demo/image/upload/bar.png` — the folder
segment `foo` is lost. -/
theorem c5CloudinaryEval :
    extractOriginalUrl
        (S "https://res.cloudinary.com/demo/image/upload/w_200,c_fill/v1/foo/bar.png")
      = S "https://res.cloudinary.com/demo/image/upload/bar.png" ∧
    (Event.fetchGet (S "https://res.cloudinary.com/demo/image/upload/bar.png")
        (S "https://res.cloudinary.com/demo/image/upload/w_200,c_fill/v1/foo/bar.png") ∈
      (processFile pubSettings demoEnv
        (S "![](https://res.cloudinary.com/demo/image/upload/w_200,c_fill/v1/foo/bar.png)")).events) ∧
    extractOriginalUrl
        (S "https://res.cloudinary.com/demo/image/upload/w_200,c_fill/v1/foo/bar.png")
      ≠ S "https://res.cloudinary.com/demo/image/upload/foo/bar.png" := by
  decide

/-- Claim C6: whenever backup-originals is enabled and a local reference
is rewritten, the backup write precedes the note write: in the trace of
any pass, every backup-write event strictly precedes every note-write
event (the note is written once, after the loop, main.ts 1054-1057,
while both backup calls happen inside the loop, main.ts 553-555 and
1021-1023). -/
theorem c6BackupBeforeWrite (s : PinataSettings) (env : Env) (content : List Char)
    (_hb : s.backupOriginalImages = true) (i j : Nat) (p t : List Char)
    (hi : (processFile s env content).events[i]? = some (Event.backupWrite p))
    (hj : (processFile s env content).events[j]? = some (Event.noteWrite t)) :
    i < j := by
  have hshape := processFile_events_shape s env content
  have hnw := (loopState_inv s env content).noWrite
  by_cases hm : (loopState s env content).modified = true
  · rw [hshape, if_pos hm] at hi hj
    have hjlen : j < (loopState s env content).events.length + 1 := by
      have := (List.getElem?_eq_some.mp hj).1
      simpa using this
    have hjeq : j = (loopState s env content).events.length := by
      by_contra hne
      have hjlt : j < (loopState s env content).events.length := by omega
      rw [List.getElem?_append, if_pos hjlt] at hj
      exact absurd (List.getElem?_mem hj) (hnw t)
    have hilen : i < (loopState s env content).events.length + 1 := by
      have := (List.getElem?_eq_some.mp hi).1
      simpa using this
    rcases Nat.lt_or_ge i (loopState s env content).events.length with hilt | hige
    · omega
    · exfalso
      have hieq : i = (loopState s env content).events.length := by omega
      rw [hieq, List.getElem?_concat_length] at hi
      simp at hi
  · rw [hshape, if_neg hm, List.append_nil] at hj
    exact absurd (List.getElem?_mem hj) (hnw t)

/-- Witness for `c6BackupBeforeWrite` at a concrete backed-up pass:
events 2 and 7 of the trace are the backup write and the note write. -/
theorem c6BackupWitness :
    bakSettings.backupOriginalImages = true ∧
    ((processFile bakSettings demoEnv (S "![cat](cat.png)")).events[2]?
        = some (Event.backupWrite (S ".image_backup//cat.png"))) ∧
    ((processFile bakSettings demoEnv (S "![cat](cat.png)")).events[7]?
        = some (Event.noteWrite (S "![cat](![](ipfs://CID1))"))) ∧
    (2 : Nat) < 7 :=
  ⟨by decide, by decide, by decide,
   c6BackupBeforeWrite bakSettings demoEnv (S "![cat](cat.png)") (by decide) 2 7
     (S ".image_backup//cat.png") (S "![cat](![](ipfs://CID1))")
     (by decide) (by decide)⟩

/-- Claim C7: the spec says a remote upload is sent under the filename
`remote-<epoch-ms>.<ext>`.  The code computes that name into a dead
variable (main.ts 955-957) and never passes it on: `handleImageUpload`
receives the downloaded `Blob` which is neither a `TFile` nor a `File`,
so the transport receives the fallback name `image-<epoch-ms>.png`
(main.ts 544-549).  Evaluated at the failing input, a remote reference
to `https://example.com/a.png` with the clock at 99: the transport gets
`image-99.png`, although the URL's extension `png` is in the image set
and the claim demands `remote-99.png`.  (The local half of the claim —
the vault filename — does hold and is visible in the trace of
`c1ReplacementEval`.) -/
theorem c7FilenameEval :
    upFileNames (processFile pubSettings demoEnv
        (S "![r](https://example.com/a.png)")).events = [S "image-99.png"] ∧
    getFileExtFromUrl (S "https://example.com/a.png") = S "png" ∧
    demoEnv.now = 99 ∧
    S "image-99.png" ≠ S "remote-99.png" := by
  decide

/-- Claim C8, counterexample: the folder driver is not recursive.  For a
folder whose only markdown file sits inside a nested subfolder, the
driver processes nothing, although a recursive enumeration finds the
file (`folder.children` is filtered for files only, main.ts 1098-1102,
and subfolders are never entered). -/
theorem c8Counterexample :
    processFolder pubSettings demoEnv
        (VEntry.vfolder (S "F")
          [VEntry.vfolder (S "sub") [VEntry.vfile (S "a.md") (S "md") []]]) = [] ∧
    S "a.md" ∈ allMdFiles
        (VEntry.vfolder (S "F")
          [VEntry.vfolder (S "sub") [VEntry.vfile (S "a.md") (S "md") []]]) := by
  refine ⟨by decide, ?_⟩
  simp [allMdFiles, allMdList]

/-- Claim C8, amended: the folder entry point applies the rewriter to
exactly the markdown files that are *direct* children of the folder,
sequentially in child order; files in nested subfolders are not
processed. -/
theorem c8FolderDirect (s : PinataSettings) (env : Env) (name : List Char)
    (children : List VEntry) (n : List Char) :
    ((n ∈ (processFolder s env (VEntry.vfolder name children)).map Prod.fst) ↔
      (∃ c, VEntry.vfile n (S "md") c ∈ children)) ∧
    (processFolder s env (VEntry.vfolder name children)).map Prod.fst
      = (children.filterMap mdProj).map Prod.fst := by
  have hmap : (processFolder s env (VEntry.vfolder name children)).map Prod.fst
      = (children.filterMap mdProj).map Prod.fst := by
    simp only [processFolder, List.map_map]
    rfl
  refine ⟨?_, hmap⟩
  rw [hmap]
  simp only [List.mem_map, List.mem_filterMap]
  constructor
  · rintro ⟨p, ⟨e, he, hme⟩, hpn⟩
    obtain ⟨pn, pc⟩ := p
    have := mdProj_eq_some.mp hme
    subst this
    exact ⟨pc, by rw [show pn = n from hpn] at he; exact he⟩
  · rintro ⟨c, hc⟩
    exact ⟨(n, c), ⟨VEntry.vfile n (S "md") c, hc, mdProj_eq_some.mpr rfl⟩, rfl⟩

/-- Witness for `c8FolderDirect`: a direct child `b.md` is processed. -/
theorem c8FolderWitness :
    S "b.md" ∈ (processFolder pubSettings demoEnv
      (VEntry.vfolder (S "F") [VEntry.vfile (S "b.md") (S "md") []])).map Prod.fst :=
  (c8FolderDirect pubSettings demoEnv (S "F")
    [VEntry.vfile (S "b.md") (S "md") []] (S "b.md")).1.mpr
    ⟨[], List.mem_singleton.mpr rfl⟩

set_option maxHeartbeats 2000000 in
/-- Claim C9: given a CID (which, being a CID, contains neither
`ipfs://` nor `?`, and with a gateway free of `?`), the composed gateway
URL is `https://<gateway>/files/<cid>` in private mode and
`https://<gateway>/ipfs/<cid>` in public mode, with the parameter string
appended after `?` exactly when optimization is enabled; and the
parameter list holds `width`, `height`, `quality` exactly when non-zero,
`format` exactly when not `auto`, `fit` exactly when not `cover`, and
nothing else (main.ts 388-429). -/
theorem c9GatewayUrl (s : PinataSettings) (cid : List Char)
    (h1 : containsSub (S "ipfs://") cid = false)
    (h2 : containsSub (S "?") (S "https://" ++ cleanGateway s ++
      (if s.isPrivate then S "/files/" else S "/ipfs/") ++ cid) = false) :
    (constructIpfsUrlBase s cid
      = (S "https://" ++ cleanGateway s ++
          (if s.isPrivate then S "/files/" else S "/ipfs/") ++ cid)
        ++ (if s.imageOptimization.enabled
            then '?' :: paramsToString (optParamsList s.imageOptimization)
            else [])) ∧
    (∀ k v, (k, v) ∈ optParamsList s.imageOptimization ↔
      ((s.imageOptimization.width ≠ 0 ∧ k = S "width"
          ∧ v = natToStr s.imageOptimization.width) ∨
       (s.imageOptimization.height ≠ 0 ∧ k = S "height"
          ∧ v = natToStr s.imageOptimization.height) ∨
       (s.imageOptimization.quality ≠ 0 ∧ k = S "quality"
          ∧ v = natToStr s.imageOptimization.quality) ∨
       (s.imageOptimization.format ≠ S "auto" ∧ k = S "format"
          ∧ v = s.imageOptimization.format) ∨
       (s.imageOptimization.fit ≠ S "cover" ∧ k = S "fit"
          ∧ v = s.imageOptimization.fit))) := by
  have hch : cleanHash cid = cid := replacePlain_of_not_contains h1
  constructor
  · unfold constructIpfsUrlBase
    dsimp only
    rw [hch]
    by_cases he : s.imageOptimization.enabled = true
    · rw [if_pos he, if_pos he, h2]
      have hq : S "?" = ['?'] := rfl
      simp [hq, List.append_assoc]
    · rw [if_neg he, if_neg he, List.append_nil]
  · intro k v
    clear h1 h2 hch
    simp only [optParamsList, List.mem_append, mem_ite_singleton, Prod.mk.injEq]
    tauto

set_option maxHeartbeats 2000000 in
/-- Witness for `c9GatewayUrl` at concrete enabled settings (width 800,
height 0, quality 80, format `webp`, fit `cover`, public mode, default
gateway, CID `QmX`). -/
theorem c9GatewayWitness :
    constructIpfsUrlBase { pubSettings with imageOptimization := optActive } (S "QmX")
      = S "https://gateway.pinata.cloud/ipfs/QmX?width=800&quality=80&format=webp" := by
  have h := (c9GatewayUrl { pubSettings with imageOptimization := optActive }
    (S "QmX") (by decide) (by decide)).1
  rw [h]
  decide

/-- Claim C10: when backup is enabled, every successful local upload
triggers the backup routine exactly twice within the pass (once inside
`handleImageUpload` before the literal is returned, main.ts 553-555, and
once in the rewriter loop after the substitution, main.ts 1021-1023);
and backup errors are caught inside `backupImage` (main.ts 588-595), so
the written text, the modified flag and every non-backup event of the
pass are identical under any backup sink whatsoever — a backup failure
never prevents the replacement or the note write. -/
theorem c10DoubleBackup (s : PinataSettings) (env env2 : Env) (content : List Char)
    (hb : s.backupOriginalImages = true)
    (h1 : env.resolve = env2.resolve) (h2 : env.upload = env2.upload)
    (h3 : env.fetchOk = env2.fetchOk) (h4 : env.now = env2.now) :
    (backupTryCount (processFile s env content).events
        = 2 * upLocalCount (processFile s env content).events) ∧
    (processFile s env content).newContent = (processFile s env2 content).newContent ∧
    (processFile s env content).modified = (processFile s env2 content).modified ∧
    keyEvents (processFile s env content).events
      = keyEvents (processFile s env2 content).events := by
  obtain ⟨e1, e2, e3, e4, e5, e6, e7, e8, e9⟩ := processFile_proj s env content
  obtain ⟨b1, b2, b3, b4⟩ := processFile_bisim s content h1 h2 h3 h4
  refine ⟨?_, b1, b3, b4⟩
  rw [e8, e9]
  exact (loopState_inv s env content).bkCount hb

/-- Witness for `c10DoubleBackup`: one local upload, two backup tries,
and a failing backup sink leaves the written text unchanged. -/
theorem c10DoubleBackupWitness :
    bakSettings.backupOriginalImages = true ∧
    backupTryCount (processFile bakSettings demoEnv (S "![cat](cat.png)")).events = 2 ∧
    upLocalCount (processFile bakSettings demoEnv (S "![cat](cat.png)")).events = 1 ∧
    (processFile bakSettings demoEnv (S "![cat](cat.png)")).newContent
      = (processFile bakSettings demoEnvBadBackup (S "![cat](cat.png)")).newContent :=
  ⟨by decide, by decide, by decide,
   (c10DoubleBackup bakSettings demoEnv demoEnvBadBackup (S "![cat](cat.png)")
     (by decide) rfl rfl rfl rfl).2.1⟩

end Pinata
